import Mathlib

/-!
Shallow embedding of the EVERNIX backtesting engine
(src/agent_lab/backtesting/engine.py, class BacktestEngine) and of the
ensemble combiner (src/agent_lab/ensemble/oversight.py, class
OversightAgent), over the decision data model of
src/agent_lab/agents/base.py.  Python floats are modelled as rationals,
a pandas price row as a function from symbols to optional prices (none
stands for NaN or a missing column), and Python dicts as association
lists whose key lists are assumed to have no duplicates wherever a dict
could not have had any.
-/

namespace AgentLab

/-- Action enum of agents/base.py. -/
inductive Action
  | BUY
  | SELL
  | HOLD
deriving DecidableEq

/-- Values stored in the open extras map of a Decision; the code in scope
only ever stores strings (agent names) and counts there. -/
inductive ExtraVal
  | str (s : String)
  | num (n : Nat)
deriving DecidableEq

/-- Decision dataclass of agents/base.py. -/
structure Decision where
  symbol : String
  action : Action
  confidence : ℚ
  score : ℚ
  rationale : String
  extras : List (String × ExtraVal)
deriving DecidableEq

/-- Python enum member access d.action.name, used when recording rows. -/
def actionName : Action → String
  | .BUY => "BUY"
  | .SELL => "SELL"
  | .HOLD => "HOLD"

/-- Constructor arguments of BacktestEngine (engine.py line 66): cost_bps
and slippage_pct. -/
structure EngineConfig where
  cost_bps : ℚ
  slippage_pct : ℚ
deriving DecidableEq

/-- self.cost = cost_bps / 1e4 (engine.py line 68). -/
def costRate (cfg : EngineConfig) : ℚ := cfg.cost_bps / 10000

/-- Default configuration of engine.py: cost_bps = 5.0, slippage_pct =
0.001. -/
def defaultCfg : EngineConfig := ⟨5, 1 / 1000⟩

/-- Mutable state threaded through the date loop of BacktestEngine.run:
the cash balance and the positions dict, the latter as a total function
that is 0 outside the traded keys, matching the initialisation of every
price column to 0.0. -/
structure EngineState where
  cash : ℚ
  positions : String → ℚ

/-- Micro-trade threshold 1e-6 of engine.py line 110. -/
def tradeEps : ℚ := 1 / 1000000

/-- max(0.0, d.confidence * d.score) (engine.py line 89). -/
def rawScore (d : Decision) : ℚ := max 0 (d.confidence * d.score)

/-- buy_syms paired with their decisions (engine.py line 86): the BUY
decisions whose symbol has a non-NaN price this date. -/
def buyList (px : String → Option ℚ) (decs : List (String × Decision)) :
    List (String × Decision) :=
  decs.filter fun sd => decide (sd.2.action = Action.BUY) && (px sd.1).isSome

/-- sum(scores) over the buy candidates (engine.py line 90). -/
def scoresSumOf (px : String → Option ℚ) (decs : List (String × Decision)) : ℚ :=
  ((buyList px decs).map fun sd => rawScore sd.2).sum

/-- total = sum(scores) or len(scores) (engine.py line 90): the divisor
falls back to the number of candidates when the raw scores sum to 0. -/
def totalOf (px : String → Option ℚ) (decs : List (String × Decision)) : ℚ :=
  if scoresSumOf px decs = 0 then ((buyList px decs).length : ℚ)
  else scoresSumOf px decs

/-- The weights dict of engine.py lines 87-92: each buy candidate maps to
its raw score max(0, confidence * score) divided by the total. -/
def weightsOf (px : String → Option ℚ) (decs : List (String × Decision)) :
    List (String × ℚ) :=
  if buyList px decs = [] then []
  else (buyList px decs).map fun sd => (sd.1, rawScore sd.2 / totalOf px decs)

/-- target_shares of engine.py lines 99-106: the dollar target
weights[s] * port_val, capped at 0.1 * port_val, converted to shares; 0
when s is not a key of the weights dict. -/
def targetSharesOf (ws : List (String × ℚ)) (pv p : ℚ) (s : String) : ℚ :=
  match ws.lookup s with
  | some w => min (w * pv) (1 / 10 * pv) / p
  | none => 0

/-- One iteration of the trade loop of engine.py lines 95-127 for the
decision-map entry sd: skip symbols with a missing or non-positive price
and sub-epsilon trades, scale a buy down to the affordable size when its
cost exceeds cash, and charge cost and slippage on both legs. -/
def execTrade (cfg : EngineConfig) (px : String → Option ℚ) (pv : ℚ)
    (ws : List (String × ℚ)) (st : EngineState) (sd : String × Decision) :
    EngineState :=
  match px sd.1 with
  | none => st
  | some p =>
    if p ≤ 0 then st else
    let trade := targetSharesOf ws pv p sd.1 - st.positions sd.1
    if |trade| < tradeEps then st else
    if 0 < trade then
      if trade * p * (1 + costRate cfg + cfg.slippage_pct) > st.cash then
        let t2 := st.cash / ((1 + costRate cfg + cfg.slippage_pct) * p)
        { cash := st.cash - t2 * p * (1 + costRate cfg + cfg.slippage_pct),
          positions := Function.update st.positions sd.1 (st.positions sd.1 + t2) }
      else
        { cash := st.cash - trade * p * (1 + costRate cfg + cfg.slippage_pct),
          positions := Function.update st.positions sd.1 (st.positions sd.1 + trade) }
    else
      { cash := st.cash + |trade * p| - |trade * p| * (costRate cfg + cfg.slippage_pct),
        positions := Function.update st.positions sd.1 (st.positions sd.1 + trade) }

/-- cash + the sum of positions[s] * px[s] over the price columns whose
price is non-NaN this date (engine.py lines 83 and 130). -/
def portVal (columns : List String) (px : String → Option ℚ)
    (st : EngineState) : ℚ :=
  st.cash + (columns.map fun s =>
    match px s with
    | some p => st.positions s * p
    | none => 0).sum

/-- One row appended to the equity curve (engine.py lines 133-141); the
date is the ordinal of the day within the run. -/
structure EquityRecord where
  date : ℕ
  symbol : String
  action : String
  score : ℚ
  confidence : ℚ
  equity : ℚ
deriving DecidableEq

/-- One iteration of the date loop of BacktestEngine.run (engine.py lines
79-141): value the portfolio, build the buy weights, fold the trade loop
over the decision map, revalue, and append one record per decision. -/
def runDate (cfg : EngineConfig) (columns : List String) (date : ℕ)
    (px : String → Option ℚ) (decs : List (String × Decision))
    (st : EngineState) : EngineState × List EquityRecord :=
  let pv := portVal columns px st
  let ws := weightsOf px decs
  let st1 := decs.foldl (execTrade cfg px pv ws) st
  let pvAfter := portVal columns px st1
  (st1, decs.map fun sd =>
    { date := date, symbol := sd.1, action := actionName sd.2.action,
      score := sd.2.score, confidence := sd.2.confidence, equity := pvAfter })

/-- One trading day: the price row of the sorted price frame and the
decision map returned by the daily decider for that date. -/
structure Day where
  px : String → Option ℚ
  decs : List (String × Decision)

/-- The date loop of BacktestEngine.run, from a given state. -/
def runFrom (cfg : EngineConfig) (columns : List String) (date : ℕ)
    (days : List Day) (st : EngineState) : EngineState × List EquityRecord :=
  match days with
  | [] => (st, [])
  | day :: rest =>
    let r1 := runDate cfg columns date day.px day.decs st
    let r2 := runFrom cfg columns (date + 1) rest r1.1
    (r2.1, r1.2 ++ r2.2)

/-- BacktestEngine.run: start with the given cash and all-zero positions
and walk the sorted days in order. -/
def run (cfg : EngineConfig) (columns : List String) (days : List Day)
    (cash : ℚ) : EngineState × List EquityRecord :=
  runFrom cfg columns 0 days { cash := cash, positions := fun _ => 0 }

/-- OversightAgent constructor state (oversight.py lines 6-9). -/
structure OversightAgent where
  weights : List (String × ℚ)
  buy_thresh : ℚ
  sell_thresh : ℚ

/-- Defaults of oversight.py: agent_weights = None (so an empty dict),
buy_thresh = 0.2, sell_thresh = -0.2. -/
def defaultOversight : OversightAgent := ⟨[], 2 / 10, -(2 / 10)⟩

/-- (d.extras or an empty dict).get("agent_name", "Unknown")
(oversight.py line 21). -/
def agentName (d : Decision) : String :=
  match d.extras.lookup "agent_name" with
  | some (ExtraVal.str s) => s
  | _ => "Unknown"

/-- float(self.weights.get(agent_name, 1.0)) (oversight.py line 22). -/
def agentWeight (O : OversightAgent) (d : Decision) : ℚ :=
  (O.weights.lookup (agentName d)).getD 1

/-- The vote of oversight.py line 23: 1.0 for BUY, -1.0 for SELL, 0.0 for
HOLD. -/
def vote : Action → ℚ
  | .BUY => 1
  | .SELL => -1
  | .HOLD => 0

/-- The aggregate accumulated over the decision list of one symbol
(oversight.py lines 18-24): agg starts at 0.0 and each decision adds
weight * vote * confidence. -/
def aggOf (O : OversightAgent) (decs : List Decision) : ℚ :=
  decs.foldl (fun agg d => agg + agentWeight O d * vote d.action * d.confidence) 0

/-- Fixed two-decimal rendering of a rational, modelling the Python format
spec .2f used in the rationale notes (rounding mode approximated; no claim
depends on the rendering itself). -/
def fmt2 (q : ℚ) : String :=
  let c : ℤ := ⌊q * 100 + 1 / 2⌋
  let f := (c % 100).natAbs
  toString (c / 100) ++ "." ++ (if f < 10 then "0" ++ toString f else toString f)

/-- One rationale note, agent_name:action(confidence) with the confidence
rendered to two decimals (oversight.py line 25). -/
def noteOf (d : Decision) : String :=
  agentName d ++ ":" ++ actionName d.action ++ "(" ++ fmt2 d.confidence ++ ")"

/-- The per-symbol body of OversightAgent.combine (oversight.py lines
17-32): threshold the aggregate into an action and build the consensus
Decision. -/
def consensus (O : OversightAgent) (sym : String) (decs : List Decision) :
    Decision :=
  { symbol := sym
    action :=
      if aggOf O decs > O.buy_thresh then Action.BUY
      else if aggOf O decs < O.sell_thresh then Action.SELL
      else Action.HOLD
    confidence := min 1 |aggOf O decs|
    score := aggOf O decs
    rationale := String.intercalate "; " (decs.map noteOf)
    extras := [("agent_votes", ExtraVal.num decs.length)] }

/-- OversightAgent.combine: one consensus Decision per input symbol
(oversight.py lines 11-33). -/
def combine (O : OversightAgent) (all : List (String × List Decision)) :
    List (String × Decision) :=
  all.map fun sd => (sd.1, consensus O sd.1 sd.2)

/-- The sign function exactly as the spec words it: sign(BUY) = +1,
sign(SELL) = -1, sign(HOLD) = 0. -/
def specSign : Action → ℚ
  | .BUY => 1
  | .SELL => -1
  | .HOLD => 0

/-- The aggregate exactly as the spec words it: the sum over the decision
list of agent_weight(d) * sign(d.action) * d.confidence. -/
def specAggregate (O : OversightAgent) (decs : List Decision) : ℚ :=
  (decs.map fun d => agentWeight O d * specSign d.action * d.confidence).sum

/-- A decision record as the scenarios build them. -/
def mkDecision (sym : String) (a : Action) (conf sc : ℚ) : Decision :=
  ⟨sym, a, conf, sc, "", []⟩

/-- Price row of day 1 of Scenario A: AAPL quoted at 100. -/
def pxA : String → Option ℚ := fun s => if s = "AAPL" then some 100 else none

/-- Decision map of day 1 of Scenario A: BUY AAPL with confidence 1 and
score 1. -/
def decsA : List (String × Decision) :=
  [("AAPL", mkDecision "AAPL" Action.BUY 1 1)]

/-- Scenario A as a one-day run over the single price column AAPL. -/
def scenA : EngineState × List EquityRecord :=
  run defaultCfg ["AAPL"] [⟨pxA, decsA⟩] 100000

/-- Price row of day 2 of Scenario B: AAPL quoted at 110. -/
def pxB : String → Option ℚ := fun s => if s = "AAPL" then some 110 else none

/-- Decision map of day 2 of Scenario B: HOLD AAPL. -/
def decsB : List (String × Decision) :=
  [("AAPL", mkDecision "AAPL" Action.HOLD 1 0)]

/-- Scenario A followed by Scenario B as a two-day run. -/
def scenAB : EngineState × List EquityRecord :=
  run defaultCfg ["AAPL"] [⟨pxA, decsA⟩, ⟨pxB, decsB⟩] 100000

/-- Price row for the zero-raw-weight date: symbol A quoted at 100. -/
def pxZ : String → Option ℚ := fun s => if s = "A" then some 100 else none

/-- Decision map for the zero-raw-weight date: one BUY with confidence 1
and score 0, so its raw weight max(0, 1 * 0) is 0. -/
def decsZ : List (String × Decision) :=
  [("A", mkDecision "A" Action.BUY 1 0)]

/-- The zero-raw-weight date run from 100000 cash and no positions. -/
def dateZ : EngineState × List EquityRecord :=
  runDate defaultCfg ["A"] 0 pxZ decsZ { cash := 100000, positions := fun _ => 0 }

/-- Day 1 of the shorting scenario: A and B quoted at 100, BUY A. -/
def dayShort1 : Day :=
  ⟨fun s => if s = "A" then some 100 else if s = "B" then some 100 else none,
   [("A", mkDecision "A" Action.BUY 1 1)]⟩

/-- Day 2 of the shorting scenario: A quoted at -2000 (an invalid price
the engine still folds into the portfolio value), B at 100, BUY B. -/
def dayShort2 : Day :=
  ⟨fun s => if s = "A" then some (-2000) else if s = "B" then some 100 else none,
   [("B", mkDecision "B" Action.BUY 1 1)]⟩

/-- The shorting scenario: the negative quote drives the portfolio value
negative, so the buy target of B is negative and the engine sells B below
zero. -/
def scenShort : EngineState × List EquityRecord :=
  run defaultCfg ["A", "B"] [dayShort1, dayShort2] 100000

/-- Day 2 of the negative-price scenario: A quoted at -50, HOLD A. -/
def dayNeg2 : Day :=
  ⟨fun s => if s = "A" then some (-50) else none,
   [("A", mkDecision "A" Action.HOLD 1 0)]⟩

/-- The negative-price scenario: buy 100 shares of A at 100, then revalue
them at the invalid price -50. -/
def scenNeg : EngineState × List EquityRecord :=
  run defaultCfg ["A"] [⟨pxZ, [("A", mkDecision "A" Action.BUY 1 1)]⟩, dayNeg2] 100000

/-- Decision of AgentA in Scenario C: BUY with confidence 0.8. -/
def decAgentA : Decision :=
  ⟨"X", Action.BUY, 8 / 10, 0, "", [("agent_name", ExtraVal.str "AgentA")]⟩

/-- Decision of AgentB in Scenario C: SELL with confidence 0.5. -/
def decAgentB : Decision :=
  ⟨"X", Action.SELL, 5 / 10, 0, "", [("agent_name", ExtraVal.str "AgentB")]⟩

/-- Scenario C: combine the two opposing decisions for symbol X with the
default oversight configuration. -/
def combC : List (String × Decision) :=
  combine defaultOversight [("X", [decAgentA, decAgentB])]

section AssocLemmas

variable {α β : Type} [BEq α] [LawfulBEq α]

theorem lookup_eq_none_of_not_mem_keys {l : List (α × β)} {a : α}
    (h : a ∉ l.map Prod.fst) : l.lookup a = none := by
  induction l with
  | nil => rfl
  | cons hd tl ih =>
    simp only [List.map_cons, List.mem_cons, not_or] at h
    rw [List.lookup_cons]
    have hne : (a == hd.1) = false := beq_eq_false_iff_ne.mpr h.1
    simp [hne, ih h.2]

theorem mem_of_lookup_eq_some {l : List (α × β)} {a : α} {b : β}
    (h : l.lookup a = some b) : (a, b) ∈ l := by
  induction l with
  | nil => simp at h
  | cons hd tl ih =>
    obtain ⟨k, v⟩ := hd
    rw [List.lookup_cons] at h
    by_cases he : a = k
    · subst he
      simp only [beq_self_eq_true, Option.some.injEq] at h
      subst h
      exact List.mem_cons_self _ _
    · have hf : (a == k) = false := beq_eq_false_iff_ne.mpr he
      simp only [hf] at h
      exact List.mem_cons_of_mem _ (ih h)

theorem lookup_eq_some_of_mem {l : List (α × β)} {a : α} {b : β}
    (hnd : (l.map Prod.fst).Nodup) (h : (a, b) ∈ l) : l.lookup a = some b := by
  induction l with
  | nil => simp at h
  | cons hd tl ih =>
    simp only [List.map_cons, List.nodup_cons] at hnd
    rcases List.mem_cons.mp h with he | ht
    · rw [← he, List.lookup_cons]
      simp
    · rw [List.lookup_cons]
      have hmm : a ∈ tl.map Prod.fst := List.mem_map_of_mem Prod.fst ht
      have hne : (a == hd.1) = false := by
        refine beq_eq_false_iff_ne.mpr fun hae => hnd.1 ?_
        rw [← hae]
        exact hmm
      simp [hne, ih hnd.2 ht]

end AssocLemmas

/-! Basic behaviour of one trade-loop iteration. -/

theorem execTrade_positions_ne (cfg : EngineConfig) (px : String → Option ℚ)
    (pv : ℚ) (ws : List (String × ℚ)) (st : EngineState)
    (sd : String × Decision) (x : String) (h : sd.1 ≠ x) :
    (execTrade cfg px pv ws st sd).positions x = st.positions x := by
  unfold execTrade
  cases hp : px sd.1 with
  | none => rfl
  | some p =>
    by_cases h0 : p ≤ 0
    · simp [h0]
    · simp only [h0, if_false]
      split_ifs <;>
        simp [Function.update_noteq (Ne.symm h)]

theorem execTrade_cash_nonneg (cfg : EngineConfig) (px : String → Option ℚ)
    (pv : ℚ) (ws : List (String × ℚ)) (st : EngineState)
    (sd : String × Decision)
    (hc : 0 ≤ costRate cfg) (hs : 0 ≤ cfg.slippage_pct)
    (hcs : costRate cfg + cfg.slippage_pct ≤ 1)
    (h : 0 ≤ st.cash) : 0 ≤ (execTrade cfg px pv ws st sd).cash := by
  unfold execTrade
  cases hp : px sd.1 with
  | none => exact h
  | some p =>
    by_cases h0 : p ≤ 0
    · simpa [h0] using h
    · push_neg at h0
      simp only [if_neg (not_le.mpr h0)]
      set trade := targetSharesOf ws pv p sd.1 - st.positions sd.1 with htr
      split_ifs with h1 h2 h3
      · exact h
      · -- scaled-down buy: all cash is spent, ending exactly at 0
        have hA : (0 : ℚ) < 1 + costRate cfg + cfg.slippage_pct := by linarith
        have hAp : ((1 + costRate cfg + cfg.slippage_pct) * p) ≠ 0 :=
          ne_of_gt (mul_pos hA h0)
        simp only
        have : st.cash / ((1 + costRate cfg + cfg.slippage_pct) * p) * p *
            (1 + costRate cfg + cfg.slippage_pct) = st.cash := by
          field_simp
          ring
        rw [this]
        simp
      · -- unscaled buy: its cost is at most the cash balance
        push_neg at h3
        simp only
        linarith
      · -- sell: non-negative proceeds are added
        simp only
        have habs : (0 : ℚ) ≤ |trade * p| := abs_nonneg _
        nlinarith

theorem execTrade_positions_self (cfg : EngineConfig) (px : String → Option ℚ)
    (pv : ℚ) (ws : List (String × ℚ)) (st : EngineState)
    (sd : String × Decision) (p : ℚ) (hp : px sd.1 = some p) (h0 : 0 < p)
    (hA : 0 < 1 + costRate cfg + cfg.slippage_pct) :
    (execTrade cfg px pv ws st sd).positions sd.1 =
      (if |targetSharesOf ws pv p sd.1 - st.positions sd.1| < tradeEps then
        st.positions sd.1
      else if 0 < targetSharesOf ws pv p sd.1 - st.positions sd.1 then
        st.positions sd.1 + min (targetSharesOf ws pv p sd.1 - st.positions sd.1)
          (st.cash / ((1 + costRate cfg + cfg.slippage_pct) * p))
      else targetSharesOf ws pv p sd.1) := by
  unfold execTrade
  rw [hp]
  dsimp only
  rw [if_neg (not_le.mpr h0)]
  have hAp : (0 : ℚ) < (1 + costRate cfg + cfg.slippage_pct) * p := mul_pos hA h0
  set t := targetSharesOf ws pv p sd.1 with hts
  split_ifs with h1 h2 h3
  · rfl
  · -- scaled-down buy
    simp only [Function.update_same]
    congr 1
    have hlt : st.cash / ((1 + costRate cfg + cfg.slippage_pct) * p) <
        t - st.positions sd.1 := by
      rw [div_lt_iff₀ hAp]
      calc st.cash < (t - st.positions sd.1) * p * (1 + costRate cfg + cfg.slippage_pct) := h3
        _ = (t - st.positions sd.1) * ((1 + costRate cfg + cfg.slippage_pct) * p) := by ring
    exact (min_eq_right hlt.le).symm
  · -- full buy
    simp only [Function.update_same]
    congr 1
    push_neg at h3
    have hle : t - st.positions sd.1 ≤
        st.cash / ((1 + costRate cfg + cfg.slippage_pct) * p) := by
      rw [le_div_iff₀ hAp]
      calc (t - st.positions sd.1) * ((1 + costRate cfg + cfg.slippage_pct) * p)
          = (t - st.positions sd.1) * p * (1 + costRate cfg + cfg.slippage_pct) := by ring
        _ ≤ st.cash := h3
    exact (min_eq_left hle).symm
  · -- sell: the position lands exactly on the target
    simp only [Function.update_same]
    ring

theorem targetSharesOf_nonneg (ws : List (String × ℚ)) (pv p : ℚ) (s : String)
    (hpv : 0 ≤ pv) (hp : 0 < p)
    (hws : ∀ a w, ws.lookup a = some w → 0 ≤ w) :
    0 ≤ targetSharesOf ws pv p s := by
  unfold targetSharesOf
  cases hw : ws.lookup s with
  | none => exact le_refl 0
  | some w =>
    have h1 : 0 ≤ w * pv := mul_nonneg (hws s w hw) hpv
    have h2 : 0 ≤ 1 / 10 * pv := by
      have : (0 : ℚ) ≤ 1 / 10 := by norm_num
      exact mul_nonneg this hpv
    exact div_nonneg (le_min h1 h2) hp.le

theorem execTrade_state_nonneg (cfg : EngineConfig) (px : String → Option ℚ)
    (pv : ℚ) (ws : List (String × ℚ)) (st : EngineState)
    (sd : String × Decision)
    (hc : 0 ≤ costRate cfg) (hs : 0 ≤ cfg.slippage_pct)
    (hcs : costRate cfg + cfg.slippage_pct ≤ 1)
    (hpv : 0 ≤ pv) (hws : ∀ a w, ws.lookup a = some w → 0 ≤ w)
    (hcash : 0 ≤ st.cash) (hpos : ∀ y, 0 ≤ st.positions y) :
    0 ≤ (execTrade cfg px pv ws st sd).cash ∧
      ∀ y, 0 ≤ (execTrade cfg px pv ws st sd).positions y := by
  refine ⟨execTrade_cash_nonneg cfg px pv ws st sd hc hs hcs hcash, ?_⟩
  intro y
  by_cases hxy : sd.1 = y
  · subst hxy
    cases hpx : px sd.1 with
    | none =>
      unfold execTrade
      rw [hpx]
      exact hpos sd.1

    | some p =>
      by_cases h0 : p ≤ 0
      · unfold execTrade
        rw [hpx]
        dsimp only
        rw [if_pos h0]
        exact hpos sd.1
      · push_neg at h0
        have hA : (0 : ℚ) < 1 + costRate cfg + cfg.slippage_pct := by linarith
        rw [execTrade_positions_self cfg px pv ws st sd p hpx h0 hA]
        have htgt : 0 ≤ targetSharesOf ws pv p sd.1 :=
          targetSharesOf_nonneg ws pv p sd.1 hpv h0 hws
        split_ifs with h1 h2
        · exact hpos sd.1
        · have hdiv : 0 ≤ st.cash / ((1 + costRate cfg + cfg.slippage_pct) * p) :=
            div_nonneg hcash (mul_pos hA h0).le
          have : 0 ≤ min (targetSharesOf ws pv p sd.1 - st.positions sd.1)
              (st.cash / ((1 + costRate cfg + cfg.slippage_pct) * p)) :=
            le_min h2.le hdiv
          linarith [hpos sd.1]
        · exact htgt
  · rw [execTrade_positions_ne cfg px pv ws st sd y hxy]
    exact hpos y

theorem foldl_positions_of_not_mem_keys (cfg : EngineConfig)
    (px : String → Option ℚ) (pv : ℚ) (ws : List (String × ℚ)) :
    ∀ (decs : List (String × Decision)) (st : EngineState) (x : String),
      x ∉ decs.map Prod.fst →
      (decs.foldl (execTrade cfg px pv ws) st).positions x = st.positions x := by
  intro decs
  induction decs with
  | nil => intro st x _; rfl
  | cons hd tl ih =>
    intro st x h
    simp only [List.map_cons, List.mem_cons, not_or] at h
    rw [List.foldl_cons, ih _ _ h.2,
      execTrade_positions_ne cfg px pv ws st hd x fun he => h.1 he.symm]

theorem foldl_cash_nonneg (cfg : EngineConfig) (px : String → Option ℚ)
    (pv : ℚ) (ws : List (String × ℚ))
    (hc : 0 ≤ costRate cfg) (hs : 0 ≤ cfg.slippage_pct)
    (hcs : costRate cfg + cfg.slippage_pct ≤ 1) :
    ∀ (decs : List (String × Decision)) (st : EngineState),
      0 ≤ st.cash → 0 ≤ (decs.foldl (execTrade cfg px pv ws) st).cash := by
  intro decs
  induction decs with
  | nil => intro st h; exact h
  | cons hd tl ih =>
    intro st h
    rw [List.foldl_cons]
    exact ih _ (execTrade_cash_nonneg cfg px pv ws st hd hc hs hcs h)

theorem foldl_state_nonneg (cfg : EngineConfig) (px : String → Option ℚ)
    (pv : ℚ) (ws : List (String × ℚ))
    (hc : 0 ≤ costRate cfg) (hs : 0 ≤ cfg.slippage_pct)
    (hcs : costRate cfg + cfg.slippage_pct ≤ 1)
    (hpv : 0 ≤ pv) (hws : ∀ a w, ws.lookup a = some w → 0 ≤ w) :
    ∀ (decs : List (String × Decision)) (st : EngineState),
      0 ≤ st.cash → (∀ y, 0 ≤ st.positions y) →
      0 ≤ (decs.foldl (execTrade cfg px pv ws) st).cash ∧
        ∀ y, 0 ≤ (decs.foldl (execTrade cfg px pv ws) st).positions y := by
  intro decs
  induction decs with
  | nil => intro st h1 h2; exact ⟨h1, h2⟩
  | cons hd tl ih =>
    intro st h1 h2
    rw [List.foldl_cons]
    have := execTrade_state_nonneg cfg px pv ws st hd hc hs hcs hpv hws h1 h2
    exact ih _ this.1 this.2

theorem rawScore_nonneg (d : Decision) : 0 ≤ rawScore d := le_max_left 0 _

theorem totalOf_pos (px : String → Option ℚ) (decs : List (String × Decision))
    (hne : buyList px decs ≠ []) : 0 < totalOf px decs := by
  unfold totalOf
  have hsum : 0 ≤ scoresSumOf px decs := by
    apply List.sum_nonneg
    intro x hx
    rw [List.mem_map] at hx
    obtain ⟨sd, _, rfl⟩ := hx
    exact rawScore_nonneg sd.2
  split_ifs with hz
  · have : 0 < (buyList px decs).length := List.length_pos.mpr hne
    exact_mod_cast this
  · exact lt_of_le_of_ne hsum (Ne.symm hz)

theorem weightsOf_lookup_nonneg (px : String → Option ℚ)
    (decs : List (String × Decision)) (a : String) (w : ℚ)
    (h : (weightsOf px decs).lookup a = some w) : 0 ≤ w := by
  have hmem := mem_of_lookup_eq_some h
  unfold weightsOf at hmem
  by_cases hb : buyList px decs = []
  · rw [if_pos hb] at hmem
    simp at hmem
  · rw [if_neg hb, List.mem_map] at hmem
    obtain ⟨sd, _, heq⟩ := hmem
    have hw : rawScore sd.2 / totalOf px decs = w := congrArg Prod.snd heq
    rw [← hw]
    exact div_nonneg (rawScore_nonneg sd.2) (totalOf_pos px decs hb).le

theorem portVal_nonneg (columns : List String) (px : String → Option ℚ)
    (st : EngineState) (hrow : ∀ s p, px s = some p → 0 ≤ p)
    (hcash : 0 ≤ st.cash) (hpos : ∀ y, 0 ≤ st.positions y) :
    0 ≤ portVal columns px st := by
  unfold portVal
  have hsum : 0 ≤ (columns.map fun s =>
      match px s with
      | some p => st.positions s * p
      | none => 0).sum := by
    apply List.sum_nonneg
    intro x hx
    rw [List.mem_map] at hx
    obtain ⟨s, _, rfl⟩ := hx
    cases hs : px s with
    | none => simp [hs]
    | some p => simpa [hs] using mul_nonneg (hpos s) (hrow s p hs)
  linarith

theorem runDate_state_nonneg (cfg : EngineConfig) (columns : List String)
    (date : ℕ) (px : String → Option ℚ) (decs : List (String × Decision))
    (st : EngineState)
    (hc : 0 ≤ costRate cfg) (hs : 0 ≤ cfg.slippage_pct)
    (hcs : costRate cfg + cfg.slippage_pct ≤ 1)
    (hrow : ∀ s p, px s = some p → 0 ≤ p)
    (hcash : 0 ≤ st.cash) (hpos : ∀ y, 0 ≤ st.positions y) :
    0 ≤ (runDate cfg columns date px decs st).1.cash ∧
      ∀ y, 0 ≤ (runDate cfg columns date px decs st).1.positions y := by
  unfold runDate
  exact foldl_state_nonneg cfg px (portVal columns px st) (weightsOf px decs)
    hc hs hcs (portVal_nonneg columns px st hrow hcash hpos)
    (weightsOf_lookup_nonneg px decs) decs st hcash hpos

theorem runFrom_state_nonneg (cfg : EngineConfig) (columns : List String)
    (hc : 0 ≤ costRate cfg) (hs : 0 ≤ cfg.slippage_pct)
    (hcs : costRate cfg + cfg.slippage_pct ≤ 1) :
    ∀ (days : List Day) (date : ℕ) (st : EngineState),
      (∀ day ∈ days, ∀ s p, day.px s = some p → 0 ≤ p) →
      0 ≤ st.cash → (∀ y, 0 ≤ st.positions y) →
      0 ≤ (runFrom cfg columns date days st).1.cash ∧
        ∀ y, 0 ≤ (runFrom cfg columns date days st).1.positions y := by
  intro days
  induction days with
  | nil => intro date st _ h1 h2; exact ⟨h1, h2⟩
  | cons day rest ih =>
    intro date st hrow h1 h2
    have hd := runDate_state_nonneg cfg columns date day.px day.decs st hc hs hcs
      (hrow day (List.mem_cons_self day rest)) h1 h2
    simp only [runFrom]
    exact ih (date + 1) _ (fun d hd2 => hrow d (List.mem_cons_of_mem day hd2))
      hd.1 hd.2

theorem runFrom_cash_nonneg (cfg : EngineConfig) (columns : List String)
    (hc : 0 ≤ costRate cfg) (hs : 0 ≤ cfg.slippage_pct)
    (hcs : costRate cfg + cfg.slippage_pct ≤ 1) :
    ∀ (days : List Day) (date : ℕ) (st : EngineState),
      0 ≤ st.cash → 0 ≤ (runFrom cfg columns date days st).1.cash := by
  intro days
  induction days with
  | nil => intro date st h; exact h
  | cons day rest ih =>
    intro date st h
    simp only [runFrom]
    refine ih (date + 1) _ ?_
    unfold runDate
    exact foldl_cash_nonneg cfg day.px (portVal columns day.px st)
      (weightsOf day.px day.decs) hc hs hcs day.decs st h

theorem execTrade_skip (cfg : EngineConfig) (px : String → Option ℚ)
    (pv : ℚ) (ws : List (String × ℚ)) (st : EngineState)
    (sd : String × Decision)
    (h : px sd.1 = none ∨ ∃ p, px sd.1 = some p ∧ p ≤ 0) :
    execTrade cfg px pv ws st sd = st := by
  unfold execTrade
  rcases h with h | ⟨p, hp, hle⟩
  · rw [h]
  · rw [hp]
    dsimp only
    rw [if_pos hle]

theorem execTrade_zero_target (cfg : EngineConfig) (px : String → Option ℚ)
    (pv : ℚ) (ws : List (String × ℚ)) (st : EngineState)
    (sd : String × Decision) (p : ℚ)
    (hp : px sd.1 = some p) (h0 : 0 < p)
    (ht : targetSharesOf ws pv p sd.1 = 0)
    (hpos : 0 ≤ st.positions sd.1) :
    (execTrade cfg px pv ws st sd).positions sd.1 =
      if st.positions sd.1 < tradeEps then st.positions sd.1 else 0 := by
  have heps : (0 : ℚ) < tradeEps := by norm_num [tradeEps]
  unfold execTrade
  rw [hp]
  dsimp only
  rw [if_neg (not_le.mpr h0), ht]
  rw [zero_sub, abs_neg, abs_of_nonneg hpos]
  by_cases hlt : st.positions sd.1 < tradeEps
  · rw [if_pos hlt, if_pos hlt]
  · rw [if_neg hlt, if_neg hlt]
    have hposgt : 0 < st.positions sd.1 := lt_of_lt_of_le heps (not_lt.mp hlt)
    rw [if_neg (by linarith : ¬(0 : ℚ) < -st.positions sd.1)]
    simp only [Function.update_same]
    ring

theorem foldl_positions_split (cfg : EngineConfig) (px : String → Option ℚ)
    (pv : ℚ) (ws : List (String × ℚ))
    (l1 l2 : List (String × Decision)) (s : String) (d : Decision)
    (st : EngineState)
    (hnd : ((l1 ++ (s, d) :: l2).map Prod.fst).Nodup) :
    ((l1 ++ (s, d) :: l2).foldl (execTrade cfg px pv ws) st).positions s =
      (execTrade cfg px pv ws (l1.foldl (execTrade cfg px pv ws) st) (s, d)).positions s ∧
    (l1.foldl (execTrade cfg px pv ws) st).positions s = st.positions s := by
  have hkeys : (l1.map Prod.fst ++ s :: l2.map Prod.fst).Nodup := by
    simpa using hnd
  rcases List.nodup_append.mp hkeys with ⟨_, hnd2, hdisj⟩
  have h2 : s ∉ l2.map Prod.fst := (List.nodup_cons.mp hnd2).1
  have h1 : s ∉ l1.map Prod.fst := fun hs => hdisj hs (List.mem_cons_self s _)
  constructor
  · rw [List.foldl_append, List.foldl_cons]
    exact foldl_positions_of_not_mem_keys cfg px pv ws l2 _ s h2
  · exact foldl_positions_of_not_mem_keys cfg px pv ws l1 st s h1

theorem combine_keys (O : OversightAgent)
    (all : List (String × List Decision)) :
    (combine O all).map Prod.fst = all.map Prod.fst := by
  unfold combine
  rw [List.map_map]
  rfl

theorem combine_lookup (O : OversightAgent)
    (all : List (String × List Decision)) (sym : String)
    (decs : List Decision) (hnd : (all.map Prod.fst).Nodup)
    (hmem : (sym, decs) ∈ all) :
    (combine O all).lookup sym = some (consensus O sym decs) := by
  apply lookup_eq_some_of_mem
  · rw [combine_keys]
    exact hnd
  · unfold combine
    exact List.mem_map_of_mem _ hmem

theorem aggOf_eq_specAggregate (O : OversightAgent) (decs : List Decision) :
    aggOf O decs = specAggregate O decs := by
  have key : ∀ (l : List Decision) (c : ℚ),
      l.foldl (fun agg d => agg + agentWeight O d * vote d.action * d.confidence) c =
        c + (l.map fun d => agentWeight O d * specSign d.action * d.confidence).sum := by
    intro l
    induction l with
    | nil => intro c; simp
    | cons hd tl ih =>
      intro c
      rw [List.foldl_cons, ih, List.map_cons, List.sum_cons]
      have hv : vote hd.action = specSign hd.action := by
        cases hd.action <;> rfl
      rw [hv]
      ring
  unfold aggOf specAggregate
  rw [key]
  ring

/-! Claim theorems. -/

/-- C4: Scenario A.  With initial cash 100000, cost_bps = 5, slippage_pct
= 0.001 and the 0.10 allocation cap, a single date with price(AAPL) = 100
and the lone decision BUY(confidence = 1, score = 1) gives the candidate
weight 1, caps the dollar target at 10000 so that target shares = 100,
deducts 100 * 100 * 1.0015 = 10015 from cash leaving 89985, and records
equity 89985 + 100 * 100 = 99985. -/
theorem c4_scenarioA :
    weightsOf pxA decsA = [("AAPL", 1)] ∧
    targetSharesOf (weightsOf pxA decsA)
      (portVal ["AAPL"] pxA { cash := 100000, positions := fun _ => 0 })
      100 "AAPL" = 100 ∧
    scenA.1.cash = 89985 ∧
    scenA.1.positions "AAPL" = 100 ∧
    (scenA.2.map fun r => r.equity) = [99985] := by
  refine ⟨?_, ?_, ?_, ?_, ?_⟩ <;>
    norm_num [scenA, run, runFrom, runDate, execTrade, portVal, weightsOf,
      scoresSumOf, totalOf, buyList, targetSharesOf, rawScore, costRate,
      tradeEps, defaultCfg, pxA, decsA, mkDecision, Function.update,
      List.lookup]

/-- C2 counterexample: starting from the Scenario A state (cash 89985, 100
shares of AAPL), a HOLD decision on the next date with price 110 does NOT
leave the position untouched: the engine computes target 0 and liquidates
all 100 shares, and the recorded equity is 100968.5, not 100985. -/
theorem c2_counterexample :
    scenAB.1.positions "AAPL" = 0 ∧
    (scenAB.2.map fun r => r.equity) = [99985, 201937 / 2] ∧
    ((201937 : ℚ) / 2 ≠ 100985) := by
  refine ⟨?_, ?_, by norm_num⟩ <;>
    norm_num [scenAB, run, runFrom, runDate, execTrade, portVal, weightsOf,
      scoresSumOf, totalOf, buyList, targetSharesOf, rawScore, costRate,
      tradeEps, defaultCfg, pxA, decsA, pxB, decsB, mkDecision,
      Function.update, List.lookup]

/-- C2 amended: starting from the Scenario A state, the next date with
price(AAPL) = 110 and a HOLD decision forces full liquidation (target 0):
the 100 shares are sold for 11000 gross, fees 11000 * 0.0015 = 16.5 are
charged, cash becomes 89985 + 10983.5 = 100968.5, and the recorded equity
is 100968.5. -/
theorem c2_amended :
    scenAB.1.positions "AAPL" = 0 ∧
    scenAB.1.cash = 201937 / 2 ∧
    (scenAB.2.map fun r => r.equity) = [99985, 201937 / 2] := by
  refine ⟨?_, ?_, ?_⟩ <;>
    norm_num [scenAB, run, runFrom, runDate, execTrade, portVal, weightsOf,
      scoresSumOf, totalOf, buyList, targetSharesOf, rawScore, costRate,
      tradeEps, defaultCfg, pxA, decsA, pxB, decsB, mkDecision,
      Function.update, List.lookup]

/-- C1 counterexample: one BUY candidate with confidence 1 and score 0 (so
its raw weight max(0, 1 * 0) is 0): the candidate set is the non-empty
singleton, every raw weight is 0, yet the normalised weight is 0 rather
than the claimed 1/1 = 1, the candidate receives a zero (not positive)
dollar target, and nothing is bought. -/
theorem c1_counterexample :
    buyList pxZ decsZ = [("A", mkDecision "A" Action.BUY 1 0)] ∧
    rawScore (mkDecision "A" Action.BUY 1 0) = 0 ∧
    (weightsOf pxZ decsZ).lookup "A" = some 0 ∧
    ((0 : ℚ) ≠ 1) ∧
    dateZ.1.positions "A" = 0 ∧
    dateZ.1.cash = 100000 := by
  refine ⟨?_, ?_, ?_, by norm_num, ?_, ?_⟩ <;>
    norm_num [dateZ, runDate, execTrade, portVal, weightsOf, scoresSumOf,
      totalOf, buyList, targetSharesOf, rawScore, costRate, tradeEps,
      defaultCfg, pxZ, decsZ, mkDecision, Function.update, List.lookup]

/-- C1 amended: when the buy-candidate set is non-empty and every
candidate raw weight max(0, confidence * score) is 0, the divisor falls
back to the candidate count (avoiding a division by zero), and every
candidate normalised weight is 0 rather than 1/n: all candidates get a
zero dollar target and nothing is bought. -/
theorem c1_zero_weights (px : String → Option ℚ)
    (decs : List (String × Decision))
    (hne : buyList px decs ≠ [])
    (hz : ∀ sd ∈ buyList px decs, rawScore sd.2 = 0) :
    weightsOf px decs = (buyList px decs).map fun sd => (sd.1, 0) := by
  have hsum : scoresSumOf px decs = 0 := by
    apply List.sum_eq_zero
    intro x hx
    rw [List.mem_map] at hx
    obtain ⟨sd, hsd, rfl⟩ := hx
    exact hz sd hsd
  have htot : totalOf px decs = ((buyList px decs).length : ℚ) := by
    unfold totalOf
    rw [if_pos hsum]
  unfold weightsOf
  rw [if_neg hne]
  apply List.map_congr_left
  intro sd hsd
  rw [hz sd hsd, htot, zero_div]

/-- C1 witness: the amended statement applied to the concrete
zero-raw-weight date. -/
theorem c1_zero_weights_witness :
    buyList pxZ decsZ ≠ [] ∧
    weightsOf pxZ decsZ = (buyList pxZ decsZ).map fun sd => (sd.1, 0) := by
  have hne : buyList pxZ decsZ ≠ [] := by
    norm_num [buyList, pxZ, decsZ, mkDecision]
  refine ⟨hne, c1_zero_weights pxZ decsZ hne ?_⟩
  intro sd hsd
  have hb : buyList pxZ decsZ = [("A", mkDecision "A" Action.BUY 1 0)] := by
    norm_num [buyList, pxZ, decsZ, mkDecision]
  rw [hb, List.mem_singleton] at hsd
  rw [hsd]
  norm_num [rawScore, mkDecision]

/-- C3: on any date, a symbol of the decision map with a valid (non-NaN
and positive) price that is not a capped buy candidate (it has no entry in
the weights dict) gets target 0, so its position is fully liquidated to 0
that date, except when the trade is below the micro-trade epsilon, in
which case the position is left unchanged. -/
theorem c3_full_liquidation (cfg : EngineConfig) (columns : List String)
    (date : ℕ) (px : String → Option ℚ) (decs : List (String × Decision))
    (st : EngineState) (s : String) (d : Decision) (p : ℚ)
    (hnd : (decs.map Prod.fst).Nodup) (hmem : (s, d) ∈ decs)
    (hp : px s = some p) (hppos : 0 < p)
    (hw : (weightsOf px decs).lookup s = none)
    (hpos : 0 ≤ st.positions s) :
    (runDate cfg columns date px decs st).1.positions s =
      if st.positions s < tradeEps then st.positions s else 0 := by
  obtain ⟨l1, l2, rfl⟩ := List.append_of_mem hmem
  unfold runDate
  dsimp only
  have hsplit := foldl_positions_split cfg px (portVal columns px st)
    (weightsOf px (l1 ++ (s, d) :: l2)) l1 l2 s d st hnd
  rw [hsplit.1]
  have htgt : targetSharesOf (weightsOf px (l1 ++ (s, d) :: l2))
      (portVal columns px st) p s = 0 := by
    unfold targetSharesOf
    rw [hw]
  rw [execTrade_zero_target cfg px (portVal columns px st)
    (weightsOf px (l1 ++ (s, d) :: l2)) _ (s, d) p hp hppos htgt
    (hsplit.2 ▸ hpos), hsplit.2]

/-- C3 witness: the general statement applied to the Scenario B date (HOLD
with 100 shares held at price 110), where it forces liquidation to 0. -/
theorem c3_witness :
    (runDate defaultCfg ["AAPL"] 1 pxB decsB
      { cash := 89985, positions := fun _ => 100 }).1.positions "AAPL" = 0 := by
  have h := c3_full_liquidation defaultCfg ["AAPL"] 1 pxB decsB
    { cash := 89985, positions := fun _ => 100 } "AAPL"
    (mkDecision "AAPL" Action.HOLD 1 0) 110
    (by norm_num [decsB])
    (by norm_num [decsB])
    (by norm_num [pxB])
    (by norm_num)
    (by norm_num [weightsOf, buyList, pxB, decsB, mkDecision]; decide)
    (by norm_num)
  rw [h]
  norm_num [tradeEps]

/-- C7: on any date, a buy candidate s (an entry of the weights dict) whose
starting position does not exceed its computed target lands at or below
that target, so its post-rebalance dollar exposure (position times price)
is at most 0.1 times the portfolio value computed before trading; the
weight mass above the cap is forfeited per symbol by the min, not
redistributed. -/
theorem c7_cap (cfg : EngineConfig) (columns : List String)
    (date : ℕ) (px : String → Option ℚ) (decs : List (String × Decision))
    (st : EngineState) (s : String) (d : Decision) (p w : ℚ)
    (hnd : (decs.map Prod.fst).Nodup) (hmem : (s, d) ∈ decs)
    (hp : px s = some p) (hppos : 0 < p)
    (hc : 0 ≤ costRate cfg) (hs : 0 ≤ cfg.slippage_pct)
    (hw : (weightsOf px decs).lookup s = some w)
    (hbuy : st.positions s ≤ targetSharesOf (weightsOf px decs)
      (portVal columns px st) p s) :
    (runDate cfg columns date px decs st).1.positions s * p ≤
      1 / 10 * portVal columns px st := by
  have hA : (0 : ℚ) < 1 + costRate cfg + cfg.slippage_pct := by linarith
  obtain ⟨l1, l2, rfl⟩ := List.append_of_mem hmem
  unfold runDate
  dsimp only
  have hsplit := foldl_positions_split cfg px (portVal columns px st)
    (weightsOf px (l1 ++ (s, d) :: l2)) l1 l2 s d st hnd
  rw [hsplit.1]
  set pv := portVal columns px st with hpv
  set ws := weightsOf px (l1 ++ (s, d) :: l2) with hws
  set st1 := l1.foldl (execTrade cfg px pv ws) st with hst1
  have hle : (execTrade cfg px pv ws st1 (s, d)).positions s ≤
      targetSharesOf ws pv p s := by
    rw [execTrade_positions_self cfg px pv ws st1 (s, d) p hp hppos hA]
    rw [hsplit.2]
    split_ifs with h1 h2
    · exact hbuy
    · have : min (targetSharesOf ws pv p s - st.positions s)
          (st1.cash / ((1 + costRate cfg + cfg.slippage_pct) * p)) ≤
          targetSharesOf ws pv p s - st.positions s := min_le_left _ _
      linarith
    · exact le_refl _
  have hexpo : (execTrade cfg px pv ws st1 (s, d)).positions s * p ≤
      targetSharesOf ws pv p s * p :=
    mul_le_mul_of_nonneg_right hle hppos.le
  have htp : targetSharesOf ws pv p s * p = min (w * pv) (1 / 10 * pv) := by
    unfold targetSharesOf
    rw [hw]
    exact div_mul_cancel₀ _ (ne_of_gt hppos)
  calc (execTrade cfg px pv ws st1 (s, d)).positions s * p
      ≤ targetSharesOf ws pv p s * p := hexpo
    _ = min (w * pv) (1 / 10 * pv) := htp
    _ ≤ 1 / 10 * pv := min_le_right _ _

/-- C7 witness: the cap statement applied to Scenario A, where the lone
candidate has weight 1 and its exposure is capped at 10% of 100000. -/
theorem c7_witness :
    (runDate defaultCfg ["AAPL"] 0 pxA decsA
        { cash := 100000, positions := fun _ => 0 }).1.positions "AAPL" * 100 ≤
      1 / 10 * portVal ["AAPL"] pxA { cash := 100000, positions := fun _ => 0 } := by
  refine c7_cap defaultCfg ["AAPL"] 0 pxA decsA
    { cash := 100000, positions := fun _ => 0 } "AAPL"
    (mkDecision "AAPL" Action.BUY 1 1) 100 1
    (by norm_num [decsA])
    (by norm_num [decsA])
    (by norm_num [pxA])
    (by norm_num)
    (by norm_num [costRate, defaultCfg])
    (by norm_num [defaultCfg])
    ?_ ?_
  · norm_num [weightsOf, scoresSumOf, totalOf, buyList, rawScore, pxA,
      decsA, mkDecision, List.lookup]
  · norm_num [targetSharesOf, weightsOf, scoresSumOf, totalOf, buyList,
      rawScore, portVal, pxA, decsA, mkDecision, List.lookup]

/-- C5: with non-negative cost and slippage rates summing to at most 1,
cash never goes negative: every single executed trade preserves cash ≥ 0
(an unaffordable buy is scaled down to spend exactly the remaining cash
rather than failing or overdrawing), and any whole run started from
non-negative cash ends with non-negative cash. -/
theorem c5_cash_nonneg (cfg : EngineConfig)
    (hc : 0 ≤ costRate cfg) (hs : 0 ≤ cfg.slippage_pct)
    (hcs : costRate cfg + cfg.slippage_pct ≤ 1) :
    (∀ (px : String → Option ℚ) (pv : ℚ) (ws : List (String × ℚ))
        (st : EngineState) (sd : String × Decision),
      0 ≤ st.cash → 0 ≤ (execTrade cfg px pv ws st sd).cash) ∧
    (∀ (columns : List String) (days : List Day) (cash : ℚ),
      0 ≤ cash → 0 ≤ (run cfg columns days cash).1.cash) := by
  constructor
  · intro px pv ws st sd h
    exact execTrade_cash_nonneg cfg px pv ws st sd hc hs hcs h
  · intro columns days cash h
    exact runFrom_cash_nonneg cfg columns hc hs hcs days 0 _ h

/-- C5 witness: the statement applied to the default configuration and the
Scenario A run. -/
theorem c5_witness :
    0 ≤ (run defaultCfg ["AAPL"] [⟨pxA, decsA⟩] 100000).1.cash :=
  (c5_cash_nonneg defaultCfg
    (by norm_num [costRate, defaultCfg])
    (by norm_num [defaultCfg])
    (by norm_num [costRate, defaultCfg])).2 ["AAPL"] [⟨pxA, decsA⟩] 100000
    (by norm_num)

/-- C6 counterexample: the engine can short.  Buy 100 shares of A at 100 on
day 1; on day 2 the price row quotes A at -2000 (an invalid price the
valuation still includes), so the portfolio value is 89985 - 200000 =
-110015 and the BUY candidate B receives the negative dollar target
min(-110015, -11001.5) = -110015: the engine sells B from 0 down to
-1100.15 shares. -/
theorem c6_counterexample :
    scenShort.1.positions "B" = -(22003 / 20) ∧
    (-(22003 / 20) : ℚ) < 0 := by
  refine ⟨?_, by norm_num⟩
  have hBA : ¬(("B" : String) = "A") := by decide
  have hAB : ¬(("A" : String) = "B") := by decide
  norm_num [hBA, hAB, scenShort, run, runFrom, runDate, execTrade, portVal,
    weightsOf, scoresSumOf, totalOf, buyList, targetSharesOf, rawScore,
    costRate, tradeEps, defaultCfg, dayShort1, dayShort2, mkDecision,
    Function.update, List.lookup]
  rw [if_neg (by
    rw [abs_of_pos (show (0 : ℚ) < 22003 / 20 by norm_num)]
    norm_num)]
  simp [Function.update]

/-- C6 amended: provided every quoted price is non-negative and the cost
and slippage rates are non-negative and sum to at most 1, positions never
go negative: each trade of the loop preserves the joint invariant of
non-negative cash and non-negative positions (given a non-negative
portfolio value and non-negative weights, as the engine always supplies),
and a whole run from non-negative cash keeps every position ≥ 0. -/
theorem c6_no_short (cfg : EngineConfig)
    (hc : 0 ≤ costRate cfg) (hs : 0 ≤ cfg.slippage_pct)
    (hcs : costRate cfg + cfg.slippage_pct ≤ 1) :
    (∀ (px : String → Option ℚ) (pv : ℚ) (ws : List (String × ℚ))
        (st : EngineState) (sd : String × Decision),
      0 ≤ pv → (∀ a w, ws.lookup a = some w → 0 ≤ w) →
      0 ≤ st.cash → (∀ y, 0 ≤ st.positions y) →
      ∀ y, 0 ≤ (execTrade cfg px pv ws st sd).positions y) ∧
    (∀ (columns : List String) (days : List Day) (cash : ℚ),
      0 ≤ cash →
      (∀ day ∈ days, ∀ s p, day.px s = some p → 0 ≤ p) →
      ∀ y, 0 ≤ (run cfg columns days cash).1.positions y) := by
  constructor
  · intro px pv ws st sd hpv hws h1 h2
    exact (execTrade_state_nonneg cfg px pv ws st sd hc hs hcs hpv hws h1 h2).2
  · intro columns days cash h1 hpx y
    exact (runFrom_state_nonneg cfg columns hc hs hcs days 0
      { cash := cash, positions := fun _ => 0 } hpx h1 (fun _ => le_refl 0)).2 y

/-- C6 witness: the amended statement applied to the Scenario A run, whose
single price row only quotes AAPL at the non-negative price 100. -/
theorem c6_no_short_witness :
    0 ≤ (run defaultCfg ["AAPL"] [⟨pxA, decsA⟩] 100000).1.positions "AAPL" := by
  refine (c6_no_short defaultCfg
    (by norm_num [costRate, defaultCfg])
    (by norm_num [defaultCfg])
    (by norm_num [costRate, defaultCfg])).2 ["AAPL"] [⟨pxA, decsA⟩] 100000
    (by norm_num) ?_ "AAPL"
  intro day hday s p hp
  rw [List.mem_singleton] at hday
  subst hday
  dsimp only [pxA] at hp
  by_cases hsx : s = "AAPL"
  · rw [if_pos hsx] at hp
    have h100 : (100 : ℚ) = p := Option.some.inj hp
    rw [← h100]
    norm_num
  · rw [if_neg hsx] at hp
    exact absurd hp (by simp)

/-- C9 counterexample: a negative price is NOT treated as absence.  After
buying 100 shares of A at 100 (cash 89985), day 2 quotes A at -50 with a
HOLD decision: the engine skips the trade but still folds 100 * (-50) into
the valuation, recording equity 84985 rather than the cash-only 89985 that
exclusion from the valuation sum would give; and a BUY decision for a
negatively priced symbol stays in the buy-candidate set instead of being
dropped. -/
theorem c9_counterexample :
    (scenNeg.2.map fun r => r.equity) = [99985, 84985] ∧
    ((84985 : ℚ) ≠ 89985) ∧
    scenNeg.1.positions "A" = 100 ∧
    buyList (fun _ => some (-50)) [("A", mkDecision "A" Action.BUY 1 1)] =
      [("A", mkDecision "A" Action.BUY 1 1)] := by
  refine ⟨?_, by norm_num, ?_, ?_⟩ <;>
    norm_num [scenNeg, run, runFrom, runDate, execTrade, portVal, weightsOf,
      scoresSumOf, totalOf, buyList, targetSharesOf, rawScore, costRate,
      tradeEps, defaultCfg, pxZ, dayNeg2, mkDecision, Function.update,
      List.lookup]

/-- C9 amended: a missing (NaN) price is treated as absence: the symbol is
dropped from the buy-candidate set and its position is untouched that
date.  A quoted but non-positive price only suppresses trading: the
position also carries forward unchanged (while the symbol still
participates in valuation and candidate selection).  In both cases the
step is total, so no error is raised. -/
theorem c9_invalid_price (cfg : EngineConfig) (columns : List String)
    (date : ℕ) (px : String → Option ℚ) (decs : List (String × Decision))
    (st : EngineState) (s : String) (d : Decision)
    (hnd : (decs.map Prod.fst).Nodup) (hmem : (s, d) ∈ decs)
    (habs : px s = none ∨ ∃ p, px s = some p ∧ p ≤ 0) :
    (runDate cfg columns date px decs st).1.positions s = st.positions s ∧
      (px s = none → s ∉ (buyList px decs).map Prod.fst) := by
  constructor
  · obtain ⟨l1, l2, rfl⟩ := List.append_of_mem hmem
    unfold runDate
    dsimp only
    have hsplit := foldl_positions_split cfg px (portVal columns px st)
      (weightsOf px (l1 ++ (s, d) :: l2)) l1 l2 s d st hnd
    rw [hsplit.1, execTrade_skip _ _ _ _ _ _ habs, hsplit.2]
  · intro hnone hbuy
    rw [List.mem_map] at hbuy
    obtain ⟨sd, hsd, rfl⟩ := hbuy
    unfold buyList at hsd
    rw [List.mem_filter] at hsd
    have : (px sd.1).isSome := by
      have := hsd.2
      simp only [Bool.and_eq_true] at this
      exact this.2
    rw [hnone] at this
    simp at this

/-- C9 witness: the amended statement applied to the negative-price day 2
(price -50, HOLD) with 100 shares held: the position is untouched; and to
a missing-price BUY, which is dropped from the candidate set. -/
theorem c9_invalid_price_witness :
    (runDate defaultCfg ["A"] 1 (fun _ => some (-50))
      [("A", mkDecision "A" Action.HOLD 1 0)]
      { cash := 89985, positions := fun _ => 100 }).1.positions "A" = 100 ∧
    "B" ∉ (buyList (fun _ => (none : Option ℚ))
      [("B", mkDecision "B" Action.BUY 1 1)]).map Prod.fst := by
  constructor
  · have h := c9_invalid_price defaultCfg ["A"] 1 (fun _ => some (-50))
      [("A", mkDecision "A" Action.HOLD 1 0)]
      { cash := 89985, positions := fun _ => 100 } "A"
      (mkDecision "A" Action.HOLD 1 0)
      (by norm_num) (by norm_num)
      (Or.inr ⟨-50, rfl, by norm_num⟩)
    exact h.1
  · have h := c9_invalid_price defaultCfg ["B"] 0 (fun _ => (none : Option ℚ))
      [("B", mkDecision "B" Action.BUY 1 1)]
      { cash := 0, positions := fun _ => 0 } "B"
      (mkDecision "B" Action.BUY 1 1)
      (by norm_num) (by norm_num) (Or.inl rfl)
    exact h.2 rfl

/-- C8: for every input map, combine emits per symbol a decision whose
score is the aggregate of the spec, the sum of agent_weight * sign(action)
* confidence with default agent weight 1, whose action thresholds that
aggregate (BUY above buy_thresh, SELL below sell_thresh, else HOLD) and
whose confidence is min(1, |aggregate|); Scenario C: AgentA BUY 0.8 plus
AgentB SELL 0.5, both weight 1, gives aggregate 0.3 and a final BUY with
confidence 0.3. -/
theorem c8_combine (O : OversightAgent) (all : List (String × List Decision))
    (sym : String) (decs : List Decision)
    (hnd : (all.map Prod.fst).Nodup) (hmem : (sym, decs) ∈ all) :
    (∃ out : Decision, (combine O all).lookup sym = some out ∧
      out.score = specAggregate O decs ∧
      out.confidence = min 1 |specAggregate O decs| ∧
      out.action = (if specAggregate O decs > O.buy_thresh then Action.BUY
        else if specAggregate O decs < O.sell_thresh then Action.SELL
        else Action.HOLD)) ∧
    (combC.map fun sd => (sd.1, sd.2.action, sd.2.confidence, sd.2.score)) =
      [("X", Action.BUY, 3 / 10, 3 / 10)] := by
  constructor
  · refine ⟨consensus O sym decs, combine_lookup O all sym decs hnd hmem,
      ?_, ?_, ?_⟩
    · dsimp only [consensus]
      exact aggOf_eq_specAggregate O decs
    · dsimp only [consensus]
      rw [aggOf_eq_specAggregate]
    · dsimp only [consensus]
      rw [aggOf_eq_specAggregate]
  · norm_num [combC, combine, consensus, aggOf, agentWeight, agentName,
      vote, defaultOversight, decAgentA, decAgentB, List.lookup]
    rw [abs_of_pos (show (0 : ℚ) < 3 / 10 by norm_num)]
    norm_num

/-- C8 witness: the statement applied to the concrete Scenario C input. -/
theorem c8_witness :
    ∃ out : Decision,
      (combine defaultOversight [("X", [decAgentA, decAgentB])]).lookup "X" =
        some out ∧
      out.score = specAggregate defaultOversight [decAgentA, decAgentB] ∧
      out.confidence =
        min 1 |specAggregate defaultOversight [decAgentA, decAgentB]| ∧
      out.action =
        (if specAggregate defaultOversight [decAgentA, decAgentB] >
            defaultOversight.buy_thresh then Action.BUY
        else if specAggregate defaultOversight [decAgentA, decAgentB] <
            defaultOversight.sell_thresh then Action.SELL
        else Action.HOLD) :=
  (c8_combine defaultOversight [("X", [decAgentA, decAgentB])] "X"
    [decAgentA, decAgentB] (by norm_num) (List.mem_singleton.mpr rfl)).1

/-- C10: combine returns exactly one consensus decision per input symbol,
preserving the key list; with thresholds configured so that buy_thresh ≥ 0
≥ sell_thresh (as by default), a symbol with an empty decision list yields
a HOLD decision with confidence 0, score 0 and empty rationale rather than
an error or a missing entry. -/
theorem c10_combine_total (O : OversightAgent)
    (all : List (String × List Decision)) (sym : String)
    (hb : 0 ≤ O.buy_thresh) (hsl : O.sell_thresh ≤ 0)
    (hnd : (all.map Prod.fst).Nodup) (hmem : (sym, []) ∈ all) :
    (combine O all).map Prod.fst = all.map Prod.fst ∧
    (combine O all).lookup sym = some
      { symbol := sym, action := Action.HOLD, confidence := 0, score := 0,
        rationale := "", extras := [("agent_votes", ExtraVal.num 0)] } := by
  refine ⟨combine_keys O all, ?_⟩
  rw [combine_lookup O all sym [] hnd hmem]
  unfold consensus
  rw [show aggOf O [] = 0 from rfl]
  rw [if_neg (not_lt.mpr hb), if_neg (not_lt.mpr hsl)]
  norm_num [String.intercalate]

/-- C10 witness: the statement applied to a concrete one-symbol input with
an empty decision list and the default thresholds. -/
theorem c10_witness :
    (combine defaultOversight [("E", ([] : List Decision))]).map Prod.fst =
      [("E", ([] : List Decision))].map Prod.fst ∧
    (combine defaultOversight [("E", ([] : List Decision))]).lookup "E" = some
      { symbol := "E", action := Action.HOLD, confidence := 0, score := 0,
        rationale := "", extras := [("agent_votes", ExtraVal.num 0)] } :=
  c10_combine_total defaultOversight [("E", ([] : List Decision))] "E"
    (by norm_num [defaultOversight]) (by norm_num [defaultOversight])
    (by norm_num) (List.mem_singleton.mpr rfl)

end AgentLab
